import Mathlib

/-!
Verification of the segregated-free-list allocator in `mm.c`.

The development shallowly embeds the allocator:
* pure word-level metadata codecs (`wSize`, `wAlloc`, `wPrevAlloc`, `mkH`,
  `mkF`, `setPA`, `freePA`), translated from `get_size`, `is_alloc`,
  `get_prev_alloc`, `make_h`, `make_f`, `set_prev_alloc`, `free_prev_alloc`;
* the size-class index `get_index` and the size normalization done by
  `malloc` (`align`);
* a state machine over a word-addressed heap (`AState`) with the list
  registry, on which `addnode`, `removenode`, `free_hf`, `allocate`,
  `get_freeblock`, `extend`, `finder`, `malloc`, `free`, `realloc` and
  `calloc` are translated statement by statement;
* a block-sequence view of the heap used to prove the coalescing invariant.

Machine integers are modelled as `Nat` with explicit `% 2^64` where C
`size_t` wraparound matters.
-/

namespace MM

/-- `2^64`, the modulus of C `size_t` arithmetic. -/
def M64 : Nat := 2 ^ 64

/-- Word size `w = 8` bytes, as in the source. -/
def W : Nat := 8

/-! ## Word-level metadata codec (from `mm.c` lines 125-209) -/

/-- `get_size` applied to a header/footer word: `val & ~0xf` on a 64-bit
word, i.e. mask out the low 4 bits. -/
def wSize (v : Nat) : Nat := v &&& 0xfffffffffffffff0

/-- `is_alloc` applied to a word: `*ptr % 2`. -/
def wAlloc (v : Nat) : Nat := v % 2

/-- `get_prev_alloc` applied to a word: `(val >> 1) & 1`. -/
def wPrevAlloc (v : Nat) : Nat := (v >>> 1) &&& 1

/-- The header word written by `make_h`: `size | alloc | prev_alloc<<1`. -/
def mkH (size prev_alloc alloc : Nat) : Nat := size ||| alloc ||| prev_alloc <<< 1

/-- The footer word written by `make_f`: `size | alloc`. -/
def mkF (size alloc : Nat) : Nat := size ||| alloc

/-- The word transform of `set_prev_alloc`: `val | 0x2`. -/
def setPA (v : Nat) : Nat := v ||| 2

/-- The word transform of `free_prev_alloc` (the source's name for
clearing the prev-alloc bit): `val & ~0x2` on a 64-bit word. -/
def freePA (v : Nat) : Nat := v &&& 0xfffffffffffffffd

/-- `get_index` from `mm.c` lines 79-98: first-match against the step
table of class upper bounds. -/
def get_index (size : Nat) : Nat :=
  if size ≤ 32 then 0
  else if size ≤ 48 then 1
  else if size ≤ 64 then 2
  else if size ≤ 96 then 3
  else if size ≤ 128 then 4
  else if size ≤ 256 then 5
  else if size ≤ 512 then 6
  else if size ≤ 1024 then 7
  else if size ≤ 2048 then 8
  else if size ≤ 4096 then 9
  else if size ≤ 8192 then 10
  else if size ≤ 16384 then 11
  else if size ≤ 65536 then 12
  else if size ≤ 131072 then 13
  else if size ≤ 262144 then 14
  else 15

/-- `align` from `mm.c`: `ALIGNMENT * ((x+ALIGNMENT-1)/ALIGNMENT)` in
`size_t` arithmetic (the addition wraps modulo `2^64`). -/
def align (x : Nat) : Nat := 16 * (((x + 15) % M64) / 16)

/-- The size normalization `malloc` performs before searching
(`size=align(size+w); if(size<32) size=32;`), with the `size+w`
addition performed in `size_t`. -/
def normalize (n : Nat) : Nat :=
  let s := align ((n + W) % M64)
  if s < 32 then 32 else s

/-- Modelled from the spec: the mathematical `align_up(x, a)` used by the
spec's normalization formula `n' = max(32, align_up(n + W, A))` — the
least multiple of `a` that is `≥ x` (for `a > 0`), with no wraparound. -/
def align_up (x a : Nat) : Nat := a * ((x + a - 1) / a)

/-! ## Bit-level facts about the codec -/

theorem wPrevAlloc_eq_testBit (v : Nat) :
    wPrevAlloc v = if v.testBit 1 then 1 else 0 := by
  simp only [wPrevAlloc, Nat.shiftRight_eq_div_pow, Nat.and_one_is_mod,
    Nat.testBit_to_div_mod, pow_one]
  by_cases h : v / 2 % 2 = 1
  · simp [h]
  · simp [h]; omega

theorem wPrevAlloc_le_one (v : Nat) : wPrevAlloc v ≤ 1 := by
  rw [wPrevAlloc_eq_testBit]; split <;> omega

theorem wAlloc_le_one (v : Nat) : wAlloc v ≤ 1 := by
  have := Nat.mod_lt v (show 0 < 2 by omega)
  simp only [wAlloc]; omega

/-- Bits 4..63 mask: `x &&& ~0xf` equals `16 * (x / 16)` for 64-bit `x`. -/
theorem land_maskF0 (x : Nat) (hx : x < M64) :
    x &&& 0xfffffffffffffff0 = 16 * (x / 16) := by
  apply Nat.eq_of_testBit_eq
  intro i
  have hmask : (0xfffffffffffffff0 : Nat) = (2 ^ 60 - 1) <<< 4 := by
    rw [Nat.shiftLeft_eq]; norm_num
  have h16 : (16 : Nat) * (x / 16) = (x / 16) <<< 4 := by
    rw [Nat.shiftLeft_eq]; ring
  rw [Nat.testBit_land, hmask, h16, Nat.testBit_shiftLeft,
    Nat.testBit_shiftLeft, Nat.testBit_two_pow_sub_one]
  rcases Nat.lt_or_ge i 4 with h4 | h4
  · have h' : ¬ (i ≥ 4) := by omega
    simp [h']
  · rcases Nat.lt_or_ge i 64 with h64 | h64
    · have hb : (x / 16).testBit (i - 4) = x.testBit i := by
        have hdiv : x / 16 = x >>> 4 := by
          simp [Nat.shiftRight_eq_div_pow]
        rw [hdiv, Nat.testBit_shiftRight]
        congr 1
        omega
      have h2 : i - 4 < 60 := by omega
      simp [h4, h2, hb]
    · have hxi : x.testBit i = false := by
        apply Nat.testBit_lt_two_pow
        exact Nat.lt_of_lt_of_le hx (Nat.pow_le_pow_right (by omega) h64)
      have hxi4 : (x / 16).testBit (i - 4) = false := by
        apply Nat.testBit_lt_two_pow
        have hp : (2 : Nat) ^ 60 * 16 = 2 ^ 64 := by norm_num
        have hd : x / 16 < 2 ^ 60 := by
          simp only [M64] at hx; omega
        exact Nat.lt_of_lt_of_le hd (Nat.pow_le_pow_right (by omega) (by omega))
      simp [hxi, hxi4]

theorem wSize_eq (x : Nat) (hx : x < M64) : wSize x = 16 * (x / 16) :=
  land_maskF0 x hx

theorem wSize_lt (v : Nat) : wSize v < M64 := by
  have h := Nat.and_le_right (n := v) (m := 0xfffffffffffffff0)
  have : (0xfffffffffffffff0 : Nat) < M64 := by norm_num [M64]
  exact Nat.lt_of_le_of_lt h this

theorem wSize_mod16 (v : Nat) : wSize v % 16 = 0 := by
  have hc : (0xfffffffffffffff0 : Nat) &&& 15 = 0 := by decide
  have h15 : wSize v &&& 15 = 0 := by
    rw [wSize, Nat.and_assoc, hc, Nat.and_zero]
  have h : wSize v &&& 15 = wSize v % 16 := by
    have h4 := Nat.and_pow_two_sub_one_eq_mod (wSize v) 4
    norm_num at h4
    exact h4
  omega

/-- `make_h`'s word is the arithmetic sum of its disjoint fields. -/
theorem mkH_eq_add (s pa al : Nat) (h16 : s % 16 = 0) (hpa : pa ≤ 1)
    (hal : al ≤ 1) : mkH s pa al = s + 2 * pa + al := by
  obtain ⟨k, rfl⟩ : ∃ k, s = 16 * k := ⟨s / 16, by omega⟩
  rw [mkH, Nat.shiftLeft_eq, Nat.or_assoc]
  have hsmall : al ||| pa * 2 ^ 1 = al + 2 * pa := by
    interval_cases al <;> interval_cases pa <;> decide
  rw [hsmall]
  have h2 : (16 : Nat) * k = 2 ^ 4 * k := by norm_num
  rw [h2, ← Nat.mul_add_lt_is_or (by omega) k]
  ring

/-- `make_f`'s word is the arithmetic sum of its disjoint fields. -/
theorem mkF_eq_add (s al : Nat) (h16 : s % 16 = 0) (hal : al ≤ 1) :
    mkF s al = s + al := by
  obtain ⟨k, rfl⟩ : ∃ k, s = 16 * k := ⟨s / 16, by omega⟩
  have h2 : (16 : Nat) * k = 2 ^ 4 * k := by norm_num
  rw [mkF, h2, ← Nat.mul_add_lt_is_or (by omega) k]

theorem wSize_mkH (s pa al : Nat) (h16 : s % 16 = 0) (hs : s < M64)
    (hpa : pa ≤ 1) (hal : al ≤ 1) : wSize (mkH s pa al) = s := by
  rw [mkH_eq_add s pa al h16 hpa hal, wSize_eq]
  · omega
  · simp only [M64] at *; omega

theorem wAlloc_mkH (s pa al : Nat) (h16 : s % 16 = 0) (hpa : pa ≤ 1)
    (hal : al ≤ 1) : wAlloc (mkH s pa al) = al := by
  rw [mkH_eq_add s pa al h16 hpa hal, wAlloc]
  omega

theorem wPrevAlloc_mkH (s pa al : Nat) (h16 : s % 16 = 0) (hpa : pa ≤ 1)
    (hal : al ≤ 1) : wPrevAlloc (mkH s pa al) = pa := by
  rw [mkH_eq_add s pa al h16 hpa hal, wPrevAlloc,
    Nat.shiftRight_eq_div_pow, Nat.and_one_is_mod]
  norm_num
  omega

theorem wSize_mkF (s al : Nat) (h16 : s % 16 = 0) (hs : s < M64)
    (hal : al ≤ 1) : wSize (mkF s al) = s := by
  rw [mkF_eq_add s al h16 hal, wSize_eq]
  · omega
  · simp only [M64] at *; omega

theorem wAlloc_mkF (s al : Nat) (h16 : s % 16 = 0) (hal : al ≤ 1) :
    wAlloc (mkF s al) = al := by
  rw [mkF_eq_add s al h16 hal, wAlloc]
  omega

theorem wPrevAlloc_setPA (v : Nat) : wPrevAlloc (setPA v) = 1 := by
  rw [wPrevAlloc_eq_testBit, setPA, Nat.testBit_lor]
  have : Nat.testBit 2 1 = true := by decide
  simp [this]

/-! ## Allocator state

The heap is a word-addressed memory `mem : Nat → Nat` (every metadata and
link access in the source is through an 8-byte-aligned `size_t*`), the 16
list heads are `heads` (`none` models a `NULL` head), and the heap
provider is modelled by the break pointer `brk` (one past `mm_heap_hi()`)
together with a hard `limit` beyond which `mm_sbrk` fails. -/

structure AState where
  mem : Nat → Nat
  heads : Nat → Option Nat
  brk : Nat
  limit : Nat

/-- `mm_sbrk(delta)`: extend the region by `delta` bytes, returning the
base of the new segment, or fail (NULL) when the provider is exhausted. -/
def sbrk (st : AState) (delta : Nat) : Option Nat × AState :=
  if st.brk + delta ≤ st.limit then
    (some st.brk, { st with brk := st.brk + delta })
  else (none, st)

/-- Store one word. -/
def wr (st : AState) (a v : Nat) : AState :=
  { st with mem := fun x => if x = a then v else st.mem x }

/-- Update one list head. -/
def setHead (st : AState) (i : Nat) (v : Option Nat) : AState :=
  { st with heads := fun j => if j = i then v else st.heads j }

/-- `get_size(ptr)`: read the word at `ptr` and mask out the low 4 bits. -/
def get_size (st : AState) (p : Nat) : Nat := wSize (st.mem p)

/-- `is_alloc(ptr)`: `*ptr % 2`. -/
def is_alloc (st : AState) (p : Nat) : Nat := wAlloc (st.mem p)

/-- `get_prev_alloc(ptr)`: `(*ptr >> 1) & 1`. -/
def get_prev_alloc (st : AState) (p : Nat) : Nat := wPrevAlloc (st.mem p)

/-- `get_f(ptr) = incr(ptr, get_size(ptr) - w)`. -/
def get_f (st : AState) (p : Nat) : Nat := p + (get_size st p - W)

/-- `get_h(ptr) = decr(ptr, get_size(ptr) - w)`. -/
def get_h (st : AState) (p : Nat) : Nat := p - (get_size st p - W)

/-- `make_h(ptr, size, prev_alloc, alloc)`. -/
def make_h (st : AState) (p size prev_alloc alloc : Nat) : AState :=
  wr st p (mkH size prev_alloc alloc)

/-- `make_f(ptr, size, alloc)`. -/
def make_f (st : AState) (p size alloc : Nat) : AState :=
  wr st p (mkF size alloc)

/-- `make_hf`: header then footer, the footer address `get_f(ptr)` being
computed after the header is written. -/
def make_hf (st : AState) (p size prev_alloc alloc : Nat) : AState :=
  let st1 := make_h st p size prev_alloc alloc
  make_f st1 (get_f st1 p) size alloc

/-- `make_epi(ptr) = make_h(ptr, 0, 1, 1)`. -/
def make_epi (st : AState) (p : Nat) : AState := make_h st p 0 1 1

/-- `set_prev_alloc(ptr)`: set bit 1 of the word at `ptr`. -/
def set_prev_alloc (st : AState) (p : Nat) : AState := wr st p (setPA (st.mem p))

/-- `free_prev_alloc(ptr)`: clear bit 1 of the word at `ptr`. -/
def free_prev_alloc (st : AState) (p : Nat) : AState := wr st p (freePA (st.mem p))

/-- `n2h(ptr) = decr(ptr, w)`. -/
def n2h (p : Nat) : Nat := p - W

/-- `h2n(ptr) = incr(ptr, w)`. -/
def h2n (p : Nat) : Nat := p + W

/-! ## Free-list registry

A free node stores `prev` in its first word and `next` in its second word
(`struct node{ Node prev, next; }` threaded through the payload). -/

/-- `addnode(ptr)`: insert the node at the head position of the list of
class `get_index(get_size(n2h(ptr)))`. A first node points to itself both
ways; otherwise the node is linked in front of the current head. -/
def addnode (st : AState) (ptr : Nat) : AState :=
  let size := get_size st (n2h ptr)
  let index := get_index size
  match st.heads index with
  | none =>
      let st1 := setHead st index (some ptr)
      let st2 := wr st1 ptr ptr
      wr st2 (ptr + W) ptr
  | some first =>
      let st1 := wr st ptr (st.mem first)
      let st2 := wr st1 (ptr + W) first
      let st3 := wr st2 (st2.mem first + W) ptr
      wr st3 first ptr

/-- `removenode(ptr, index)`: unlink the node; a singleton list clears the
head, and a removed head is replaced by its successor. -/
def removenode (st : AState) (ptr : Nat) (index : Nat) : AState :=
  if st.mem (ptr + W) = ptr ∧ st.heads index = some ptr then
    setHead st index none
  else
    let st1 := if st.heads index = some ptr then
        setHead st index (some (st.mem (ptr + W)))
      else st
    let st2 := wr st1 (st1.mem ptr + W) (st1.mem (ptr + W))
    wr st2 (st2.mem (ptr + W)) (st2.mem ptr)

/-! ## Release and coalesce -/

/-- `free_hf(ptr)` from `mm.c` lines 318-389: write header/footer for the
newly freed block, coalescing with the free neighbors (four cases), then
add the resulting node to its list. Returns the node pointer. -/
def free_hf (st : AState) (ptr : Nat) : Nat × AState :=
  let prev_footer := ptr - W
  let next_header := get_f st ptr + W
  let prev := get_prev_alloc st ptr
  let next := is_alloc st next_header
  let curr_size := get_size st ptr
  let prev_size := get_size st prev_footer
  let next_size := get_size st next_header
  let prev_index := get_index prev_size
  let next_index := get_index next_size
  if prev = 0 ∧ next = 0 then
    let prev_header := get_h st prev_footer
    let prev_node := h2n prev_header
    let next_node := h2n next_header
    let st1 := removenode st prev_node prev_index
    let st2 := removenode st1 next_node next_index
    let size := curr_size + prev_size + next_size
    let st3 := make_h st2 prev_header size (get_prev_alloc st2 prev_header) 0
    let st4 := make_f st3 (get_f st3 next_header) size 0
    let p2 := get_h st4 prev_footer
    let node := h2n p2
    (node, addnode st4 node)
  else if prev = 0 ∧ next = 1 then
    let prev_node := h2n (get_h st prev_footer)
    let st1 := removenode st prev_node prev_index
    let size := curr_size + prev_size
    let st2 := make_h st1 (get_h st1 prev_footer) size
        (get_prev_alloc st1 (get_h st1 prev_footer)) 0
    let st3 := make_f st2 (get_f st2 ptr) size 0
    let st4 := free_prev_alloc st3 next_header
    let p2 := get_h st4 prev_footer
    let node := h2n p2
    (node, addnode st4 node)
  else if prev = 1 ∧ next = 0 then
    let next_node := h2n next_header
    let st1 := removenode st next_node next_index
    let size := curr_size + next_size
    let st2 := make_h st1 ptr size 1 0
    let st3 := make_f st2 (get_f st2 next_header) size 0
    let node := h2n ptr
    (node, addnode st3 node)
  else
    let size := curr_size + 0 * next_index + 0 * prev_index * next * prev
    let st1 := make_h st ptr size 1 0
    let st2 := make_f st1 (get_f st1 ptr) size 0
    let st3 := free_prev_alloc st2 (get_f st2 ptr + W)
    let node := h2n ptr
    (node, addnode st3 node)

/-! ## Placement engine -/

/-- `allocate(ptr, block_size)` from `mm.c` lines 409-438: split when the
remainder would be at least `4*w = 32` bytes, else consume the whole block
and set the successor's prev-alloc bit. The `size_t` subtraction
`total_size - block_size` wraps modulo `2^64`. -/
def allocate (st : AState) (ptr block_size : Nat) : Nat × AState :=
  let total_size := get_size st ptr
  let newblock_size := (M64 + total_size - block_size) % M64
  if 4 * W ≤ newblock_size then
    let end_hptr := ptr + block_size
    let end_fptr := get_f st ptr
    let st1 := make_h st ptr block_size (get_prev_alloc st ptr) 1
    let st2 := make_h st1 end_hptr newblock_size 1 0
    let st3 := make_f st2 end_fptr newblock_size 0
    let st4 := addnode st3 (h2n end_hptr)
    (ptr + W, st4)
  else
    let st1 := make_h st ptr total_size (get_prev_alloc st ptr) 1
    let st2 := set_prev_alloc st1 (ptr + total_size)
    (ptr + W, st2)

/-- The do-while walk of `get_freeblock` over one circular list starting
at the head `h`: visit `x`, move to `x->next`, stop when back at `h`. The
walk is read-only; `fuel` bounds the number of steps taken (a well-formed
list is finite, so a large enough fuel is exact). -/
def findInList (st : AState) (block_size hd : Nat) : Nat → Nat → Option Nat
  | fuel, x =>
    if block_size ≤ get_size st (n2h x) then some x
    else
      match fuel with
      | 0 => none
      | fuel' + 1 =>
          let x' := st.mem (x + W)
          if x' = hd then none else findInList st block_size hd fuel' x'

/-- The outer loop of `get_freeblock`: indices `i` from
`get_index(block_size)` up to 15, skipping empty heads; `k` counts the
remaining indices. Returns the found node and its list index. -/
def searchIdx (st : AState) (block_size fuel : Nat) : Nat → Nat → Option (Nat × Nat)
  | _, 0 => none
  | i, k + 1 =>
      match st.heads i with
      | some hd =>
          match findInList st block_size hd fuel hd with
          | some x => some (x, i)
          | none => searchIdx st block_size fuel (i + 1) k
      | none => searchIdx st block_size fuel (i + 1) k

/-- `get_freeblock(block_size)`: first-fit search from class
`get_index(block_size)` upward; on success the node is removed from its
list, otherwise the state is untouched. -/
def get_freeblock (st : AState) (block_size fuel : Nat) : Option Nat × AState :=
  match searchIdx st block_size fuel (get_index block_size)
      (16 - get_index block_size) with
  | some (x, i) => (some x, removenode st x i)
  | none => (none, st)

/-- `extend(block_size)` from `mm.c` lines 477-487: read the old
epilogue's prev-alloc bit at `decr(mm_heap_hi(), w-1)`, ask `mm_sbrk` for
exactly `block_size` bytes, and on success overwrite the old epilogue with
the new block's header and write a fresh epilogue at the new end. -/
def extend (st : AState) (block_size : Nat) : Option Nat × AState :=
  let prev_alloc := get_prev_alloc st ((st.brk - 1) - (W - 1))
  match sbrk st block_size with
  | (none, st') => (none, st')
  | (some newPtr, st') =>
      let st1 := make_h st' (newPtr - W) block_size prev_alloc 1
      let st2 := make_epi st1 (newPtr + (block_size - W))
      (some newPtr, st2)

/-- `finder(ptr, block_size)`: use a found free block via `allocate`, or
fall back to `extend`. Returns the payload pointer (or NULL). -/
def finder (st : AState) (block_size fuel : Nat) : Option Nat × AState :=
  match get_freeblock st block_size fuel with
  | (some freeblock, st') =>
      let ptr := n2h freeblock
      let (payload, st'') := allocate st' ptr block_size
      (some payload, st'')
  | (none, st') => extend st' block_size

/-! ## Public API -/

/-- `malloc(size)`: normalize the request (`size=align(size+w)`, floored
at 32) and call `finder`. -/
def malloc (st : AState) (size fuel : Nat) : Option Nat × AState :=
  finder st (normalize size) fuel

/-- `free(ptr)`: no-op on NULL, else `free_hf(n2h(ptr))`. -/
def free (st : AState) (p : Option Nat) : AState :=
  match p with
  | none => st
  | some ptr => (free_hf st (n2h ptr)).2

/-- The arguments of the `memcpy(newptr, oldptr, minsize)` call issued by
`realloc`; `dst = none` models passing the NULL pointer of a failed
`malloc` as the destination. `memcpy` itself is an external primitive. -/
structure CopyCall where
  dst : Option Nat
  src : Nat
  len : Nat
  deriving DecidableEq

/-- `realloc(oldptr, size)` from `mm.c` lines 556-574: NULL old pointer
means `malloc`; `size == 0` frees and falls through to `return NULL`;
otherwise `malloc` a new block, read the old block's header size, copy
`size>oldsize ? oldsize : size` bytes, and return the new pointer. The
third component records the `memcpy` call (if any); no `free` of the old
block appears in this path. -/
def realloc (st : AState) (oldptr : Option Nat) (size fuel : Nat) :
    Option Nat × AState × Option CopyCall :=
  match oldptr with
  | none =>
      let (r, st') := malloc st size fuel
      (r, st', none)
  | some p =>
      if size = 0 then
        (none, free st (some p), none)
      else
        let (newptr, st1) := malloc st size fuel
        let oldsize := get_size st1 (p - W)
        let minsize := if oldsize < size then oldsize else size
        (newptr, st1, some ⟨newptr, p, minsize⟩)

/-- `calloc(nmemb, size)`: `size *= nmemb` in `size_t` (wrapping modulo
`2^64`, no overflow check), `malloc` the product, and when the result is
non-NULL call `memset(ptr, 0, size)` — recorded as the third component
(pointer and length of the zeroed range). -/
def calloc (st : AState) (nmemb size fuel : Nat) :
    Option Nat × AState × Option (Nat × Nat) :=
  let size' := (size * nmemb) % M64
  let (p, st1) := malloc st size' fuel
  match p with
  | some q => (p, st1, some (q, size'))
  | none => (p, st1, none)

/-- `mm_init`: request `align(4*w)` bytes, build the prologue block of
size `2*w` at offset `w` and the epilogue header at offset `3*w`, with all
list heads NULL. -/
def mm_init (lo limit : Nat) : Option AState :=
  let st0 : AState := { mem := fun _ => 0, heads := fun _ => none, brk := lo, limit := limit }
  match sbrk st0 (align (4 * W)) with
  | (some p, st1) =>
      let st2 := make_hf st1 (p + W) (2 * W) 0 1
      let st3 := make_epi st2 (p + 3 * W)
      some st3
  | (none, _) => none

/-! ## Reading back writes -/

theorem mem_wr_eq (st : AState) (a v : Nat) : (wr st a v).mem a = v := by
  simp [wr]

theorem mem_wr_ne (st : AState) (a v x : Nat) (h : x ≠ a) :
    (wr st a v).mem x = st.mem x := by
  simp [wr, h]

theorem heads_wr (st : AState) (a v : Nat) : (wr st a v).heads = st.heads := rfl

theorem brk_wr (st : AState) (a v : Nat) : (wr st a v).brk = st.brk := rfl

theorem mem_setHead (st : AState) (i : Nat) (o : Option Nat) :
    (setHead st i o).mem = st.mem := rfl

theorem heads_setHead_eq (st : AState) (i : Nat) (o : Option Nat) :
    (setHead st i o).heads i = o := by
  simp [setHead]

theorem heads_setHead_ne (st : AState) (i : Nat) (o : Option Nat) (j : Nat)
    (h : j ≠ i) : (setHead st i o).heads j = st.heads j := by
  simp [setHead, h]

/-! ## Block-sequence view of the heap

For the coalescing invariant the heap is abstracted as the sequence of
blocks between `mm_heap_lo` and the epilogue, each carrying its size and
allocation bit (the `prev_alloc` bit of a header is, by the prev-alloc
coherence invariant, the allocation bit of the preceding list entry). The
prologue is the first entry; the epilogue is the end of the list and every
walk keeps an allocated block at each end when one is needed, exactly as
the sentinels guarantee in the source. -/

structure Block where
  size : Nat
  alloc : Bool
  deriving DecidableEq

/-- No two physically adjacent blocks are both free. -/
def noAdjFree (bs : List Block) : Prop :=
  List.Chain' (fun a b => a.alloc = true ∨ b.alloc = true) bs

/-- `free_hf` at the block level: the freed block `cur` sits between its
physical neighbors `pb` (previous; the prologue guarantees it exists) and
`nb` (next; the epilogue guarantees it exists). The four cases follow
`mm.c` lines 344-384: merge with whichever neighbors are free, with the
merged sizes summed exactly as in the source. -/
def free_blocks (p1 : List Block) (pb cur nb : Block) (p2 : List Block) :
    List Block :=
  if pb.alloc = false ∧ nb.alloc = false then
    p1 ++ ⟨cur.size + pb.size + nb.size, false⟩ :: p2
  else if pb.alloc = false ∧ nb.alloc = true then
    p1 ++ ⟨cur.size + pb.size, false⟩ :: nb :: p2
  else if pb.alloc = true ∧ nb.alloc = false then
    p1 ++ pb :: ⟨cur.size + nb.size, false⟩ :: p2
  else
    p1 ++ pb :: ⟨cur.size, false⟩ :: nb :: p2

/-- `allocate` at the block level: the chosen free block `cur` is split
when the remainder is at least 32 bytes, else consumed whole. -/
def allocate_blocks (p1 : List Block) (cur : Block) (p2 : List Block)
    (n : Nat) : List Block :=
  if 4 * W ≤ cur.size - n then
    p1 ++ ⟨n, true⟩ :: ⟨cur.size - n, false⟩ :: p2
  else
    p1 ++ ⟨cur.size, true⟩ :: p2

/-- `extend` at the block level: the extended block is appended at the
high end of the heap, already allocated. -/
def extend_blocks (bs : List Block) (n : Nat) : List Block :=
  bs ++ [⟨n, true⟩]

/-! ## Claims -/

/-- C4: after every public operation on a heap satisfying the invariants,
no two physically adjacent blocks are both free. The public operations
mutate the block sequence only through `free_hf` (freeing an allocated
block between its physical neighbors), `allocate` (splitting or consuming
a free block) and `extend` (appending an allocated block); each preserves
the no-adjacent-free-blocks invariant. -/
theorem claim_C4 :
    (∀ (p1 : List Block) (pb cur nb : Block) (p2 : List Block),
        cur.alloc = true →
        noAdjFree (p1 ++ pb :: cur :: nb :: p2) →
        noAdjFree (free_blocks p1 pb cur nb p2)) ∧
    (∀ (p1 : List Block) (cur : Block) (p2 : List Block) (n : Nat),
        cur.alloc = false →
        noAdjFree (p1 ++ cur :: p2) →
        noAdjFree (allocate_blocks p1 cur p2 n)) ∧
    (∀ (bs : List Block) (n : Nat),
        noAdjFree bs → noAdjFree (extend_blocks bs n)) := by
  have hchain : ∀ (l1 : List Block) (m : Block) (l2 : List Block),
      List.Chain' (fun a b => a.alloc = true ∨ b.alloc = true) l1 →
      List.Chain' (fun a b => a.alloc = true ∨ b.alloc = true) l2 →
      (∀ x, l1.getLast? = some x → x.alloc = true ∨ m.alloc = true) →
      (∀ y, l2.head? = some y → m.alloc = true ∨ y.alloc = true) →
      List.Chain' (fun a b => a.alloc = true ∨ b.alloc = true)
        (l1 ++ m :: l2) := by
    intro l1 m l2 hl1 hl2 hlast hhead
    rw [List.chain'_append]
    refine ⟨hl1, ?_, ?_⟩
    · rw [List.chain'_cons']
      exact ⟨fun y hy => hhead y (Option.mem_def.mp hy), hl2⟩
    · intro x hx y hy
      simp only [List.head?_cons, Option.mem_def, Option.some.injEq] at hy
      subst hy
      exact hlast x (Option.mem_def.mp hx)
  refine ⟨?_, ?_, ?_⟩
  · intro p1 pb cur nb p2 _hc h
    simp only [noAdjFree, List.chain'_append, List.chain'_cons',
      List.head?_cons, Option.mem_def, Option.some.injEq, forall_eq'] at h
    obtain ⟨h1, ⟨_hpc, _hcn, hn2, h2⟩, hb⟩ := h
    unfold noAdjFree free_blocks
    cases hpb : pb.alloc <;> cases hnb : nb.alloc
    · rw [if_pos ⟨rfl, rfl⟩]
      refine hchain p1 _ p2 h1 h2 (fun x hx => ?_) (fun y hy => ?_)
      · rcases hb x hx with h' | h'
        · exact Or.inl h'
        · rw [hpb] at h'; exact (Bool.false_ne_true h').elim
      · rcases hn2 y hy with h' | h'
        · rw [hnb] at h'; exact (Bool.false_ne_true h').elim
        · exact Or.inr h'
    · rw [if_neg (by simp), if_pos ⟨rfl, rfl⟩]
      refine hchain p1 _ (nb :: p2) h1 ?_ (fun x hx => ?_) (fun y hy => ?_)
      · rw [List.chain'_cons']
        exact ⟨fun y hy => hn2 y (Option.mem_def.mp hy), h2⟩
      · rcases hb x hx with h' | h'
        · exact Or.inl h'
        · rw [hpb] at h'; exact (Bool.false_ne_true h').elim
      · simp only [List.head?_cons, Option.some.injEq] at hy
        subst hy
        exact Or.inr hnb
    · rw [if_neg (by simp), if_neg (by simp), if_pos ⟨rfl, rfl⟩]
      rw [show p1 ++ pb :: (⟨cur.size + nb.size, false⟩ : Block) :: p2 =
        (p1 ++ [pb]) ++ (⟨cur.size + nb.size, false⟩ : Block) :: p2 by simp]
      refine hchain (p1 ++ [pb]) _ p2 ?_ h2 (fun x hx => ?_) (fun y hy => ?_)
      · rw [List.chain'_append]
        refine ⟨h1, List.chain'_singleton pb, ?_⟩
        intro x hx y hy
        simp only [List.head?_cons, Option.mem_def, Option.some.injEq] at hy
        subst hy
        exact hb x (Option.mem_def.mp hx)
      · rw [List.getLast?_concat] at hx
        simp only [Option.some.injEq] at hx
        subst hx
        exact Or.inl hpb
      · rcases hn2 y hy with h' | h'
        · rw [hnb] at h'; exact (Bool.false_ne_true h').elim
        · exact Or.inr h'
    · rw [if_neg (by simp), if_neg (by simp), if_neg (by simp)]
      rw [show p1 ++ pb :: (⟨cur.size, false⟩ : Block) :: nb :: p2 =
        (p1 ++ [pb]) ++ (⟨cur.size, false⟩ : Block) :: nb :: p2 by simp]
      refine hchain (p1 ++ [pb]) _ (nb :: p2) ?_ ?_ (fun x hx => ?_)
        (fun y hy => ?_)
      · rw [List.chain'_append]
        refine ⟨h1, List.chain'_singleton pb, ?_⟩
        intro x hx y hy
        simp only [List.head?_cons, Option.mem_def, Option.some.injEq] at hy
        subst hy
        exact hb x (Option.mem_def.mp hx)
      · rw [List.chain'_cons']
        exact ⟨fun y hy => hn2 y (Option.mem_def.mp hy), h2⟩
      · rw [List.getLast?_concat] at hx
        simp only [Option.some.injEq] at hx
        subst hx
        exact Or.inl hpb
      · simp only [List.head?_cons, Option.some.injEq] at hy
        subst hy
        exact Or.inr hnb
  · intro p1 cur p2 n hc h
    simp only [noAdjFree, List.chain'_append, List.chain'_cons',
      List.head?_cons, Option.mem_def, Option.some.injEq, forall_eq'] at h
    obtain ⟨h1, ⟨hcp, h2⟩, hb⟩ := h
    unfold noAdjFree allocate_blocks
    by_cases hsp : 4 * W ≤ cur.size - n
    · rw [if_pos hsp]
      refine hchain p1 _ (⟨cur.size - n, false⟩ :: p2) h1 ?_
        (fun x _hx => Or.inr rfl) (fun y hy => ?_)
      · rw [List.chain'_cons']
        refine ⟨fun y hy => ?_, h2⟩
        rcases hcp y (Option.mem_def.mp hy) with h' | h'
        · rw [hc] at h'; exact (Bool.false_ne_true h').elim
        · exact Or.inr h'
      · simp only [List.head?_cons, Option.some.injEq] at hy
        subst hy
        exact Or.inl rfl
    · rw [if_neg hsp]
      exact hchain p1 _ p2 h1 h2 (fun x _hx => Or.inr rfl)
        (fun y _hy => Or.inl rfl)
  · intro bs n h
    unfold noAdjFree extend_blocks
    rw [List.chain'_append]
    refine ⟨h, List.chain'_singleton _, ?_⟩
    intro x hx y hy
    simp only [List.head?_cons, Option.mem_def, Option.some.injEq] at hy
    subst hy
    exact Or.inr rfl

/-- Witness for C4 at concrete block sequences. -/
theorem claim_C4_witness :
    noAdjFree (free_blocks [] ⟨16, true⟩ ⟨32, true⟩ ⟨32, true⟩ []) ∧
    noAdjFree (allocate_blocks [⟨16, true⟩] ⟨64, false⟩ [⟨32, true⟩] 32) ∧
    noAdjFree (extend_blocks [⟨16, true⟩] 32) :=
  ⟨claim_C4.1 [] ⟨16, true⟩ ⟨32, true⟩ ⟨32, true⟩ [] rfl
      (by simp [noAdjFree]),
   claim_C4.2.1 [⟨16, true⟩] ⟨64, false⟩ [⟨32, true⟩] 32 rfl
      (by simp [noAdjFree]),
   claim_C4.2.2 [⟨16, true⟩] 32 (by simp [noAdjFree])⟩

/-- Interval case analysis for `get_index`: exactly one step-table row
applies to any size. -/
theorem get_index_spec (s : Nat) :
    (s ≤ 32 ∧ get_index s = 0) ∨
    (32 < s ∧ s ≤ 48 ∧ get_index s = 1) ∨
    (48 < s ∧ s ≤ 64 ∧ get_index s = 2) ∨
    (64 < s ∧ s ≤ 96 ∧ get_index s = 3) ∨
    (96 < s ∧ s ≤ 128 ∧ get_index s = 4) ∨
    (128 < s ∧ s ≤ 256 ∧ get_index s = 5) ∨
    (256 < s ∧ s ≤ 512 ∧ get_index s = 6) ∨
    (512 < s ∧ s ≤ 1024 ∧ get_index s = 7) ∨
    (1024 < s ∧ s ≤ 2048 ∧ get_index s = 8) ∨
    (2048 < s ∧ s ≤ 4096 ∧ get_index s = 9) ∨
    (4096 < s ∧ s ≤ 8192 ∧ get_index s = 10) ∨
    (8192 < s ∧ s ≤ 16384 ∧ get_index s = 11) ∨
    (16384 < s ∧ s ≤ 65536 ∧ get_index s = 12) ∨
    (65536 < s ∧ s ≤ 131072 ∧ get_index s = 13) ∨
    (131072 < s ∧ s ≤ 262144 ∧ get_index s = 14) ∨
    (262144 < s ∧ get_index s = 15) := by
  unfold get_index
  by_cases h1 : s ≤ 32
  · rw [if_pos h1]
    exact Or.inl ⟨h1, rfl⟩
  · rw [if_neg h1]
    by_cases h2 : s ≤ 48
    · rw [if_pos h2]
      exact Or.inr (Or.inl ⟨by omega, h2, rfl⟩)
    · rw [if_neg h2]
      by_cases h3 : s ≤ 64
      · rw [if_pos h3]
        exact Or.inr (Or.inr (Or.inl ⟨by omega, h3, rfl⟩))
      · rw [if_neg h3]
        by_cases h4 : s ≤ 96
        · rw [if_pos h4]
          exact Or.inr (Or.inr (Or.inr (Or.inl ⟨by omega, h4, rfl⟩)))
        · rw [if_neg h4]
          by_cases h5 : s ≤ 128
          · rw [if_pos h5]
            exact Or.inr (Or.inr (Or.inr (Or.inr (Or.inl ⟨by omega, h5, rfl⟩))))
          · rw [if_neg h5]
            by_cases h6 : s ≤ 256
            · rw [if_pos h6]
              exact Or.inr (Or.inr (Or.inr (Or.inr (Or.inr (Or.inl ⟨by omega, h6, rfl⟩)))))
            · rw [if_neg h6]
              by_cases h7 : s ≤ 512
              · rw [if_pos h7]
                exact Or.inr (Or.inr (Or.inr (Or.inr (Or.inr (Or.inr (Or.inl ⟨by omega, h7, rfl⟩))))))
              · rw [if_neg h7]
                by_cases h8 : s ≤ 1024
                · rw [if_pos h8]
                  exact Or.inr (Or.inr (Or.inr (Or.inr (Or.inr (Or.inr (Or.inr (Or.inl ⟨by omega, h8, rfl⟩)))))))
                · rw [if_neg h8]
                  by_cases h9 : s ≤ 2048
                  · rw [if_pos h9]
                    exact Or.inr (Or.inr (Or.inr (Or.inr (Or.inr (Or.inr (Or.inr (Or.inr (Or.inl ⟨by omega, h9, rfl⟩))))))))
                  · rw [if_neg h9]
                    by_cases h10 : s ≤ 4096
                    · rw [if_pos h10]
                      exact Or.inr (Or.inr (Or.inr (Or.inr (Or.inr (Or.inr (Or.inr (Or.inr (Or.inr (Or.inl ⟨by omega, h10, rfl⟩)))))))))
                    · rw [if_neg h10]
                      by_cases h11 : s ≤ 8192
                      · rw [if_pos h11]
                        exact Or.inr (Or.inr (Or.inr (Or.inr (Or.inr (Or.inr (Or.inr (Or.inr (Or.inr (Or.inr (Or.inl ⟨by omega, h11, rfl⟩))))))))))
                      · rw [if_neg h11]
                        by_cases h12 : s ≤ 16384
                        · rw [if_pos h12]
                          exact Or.inr (Or.inr (Or.inr (Or.inr (Or.inr (Or.inr (Or.inr (Or.inr (Or.inr (Or.inr (Or.inr (Or.inl ⟨by omega, h12, rfl⟩)))))))))))
                        · rw [if_neg h12]
                          by_cases h13 : s ≤ 65536
                          · rw [if_pos h13]
                            exact Or.inr (Or.inr (Or.inr (Or.inr (Or.inr (Or.inr (Or.inr (Or.inr (Or.inr (Or.inr (Or.inr (Or.inr (Or.inl ⟨by omega, h13, rfl⟩))))))))))))
                          · rw [if_neg h13]
                            by_cases h14 : s ≤ 131072
                            · rw [if_pos h14]
                              exact Or.inr (Or.inr (Or.inr (Or.inr (Or.inr (Or.inr (Or.inr (Or.inr (Or.inr (Or.inr (Or.inr (Or.inr (Or.inr (Or.inl ⟨by omega, h14, rfl⟩)))))))))))))
                            · rw [if_neg h14]
                              by_cases h15 : s ≤ 262144
                              · rw [if_pos h15]
                                exact Or.inr (Or.inr (Or.inr (Or.inr (Or.inr (Or.inr (Or.inr (Or.inr (Or.inr (Or.inr (Or.inr (Or.inr (Or.inr (Or.inr (Or.inl ⟨by omega, h15, rfl⟩))))))))))))))
                              · rw [if_neg h15]
                                exact Or.inr (Or.inr (Or.inr (Or.inr (Or.inr (Or.inr (Or.inr (Or.inr (Or.inr (Or.inr (Or.inr (Or.inr (Or.inr (Or.inr (Or.inr (⟨by omega, rfl⟩)))))))))))))))

/-- C8: `get_index` matches the 16-entry step table, is monotone in the
size, and always yields a class in `0..15`. -/
theorem claim_C8 :
    (∀ s, (s ≤ 32 → get_index s = 0) ∧
      (32 < s ∧ s ≤ 48 → get_index s = 1) ∧
      (48 < s ∧ s ≤ 64 → get_index s = 2) ∧
      (64 < s ∧ s ≤ 96 → get_index s = 3) ∧
      (96 < s ∧ s ≤ 128 → get_index s = 4) ∧
      (128 < s ∧ s ≤ 256 → get_index s = 5) ∧
      (256 < s ∧ s ≤ 512 → get_index s = 6) ∧
      (512 < s ∧ s ≤ 1024 → get_index s = 7) ∧
      (1024 < s ∧ s ≤ 2048 → get_index s = 8) ∧
      (2048 < s ∧ s ≤ 4096 → get_index s = 9) ∧
      (4096 < s ∧ s ≤ 8192 → get_index s = 10) ∧
      (8192 < s ∧ s ≤ 16384 → get_index s = 11) ∧
      (16384 < s ∧ s ≤ 65536 → get_index s = 12) ∧
      (65536 < s ∧ s ≤ 131072 → get_index s = 13) ∧
      (131072 < s ∧ s ≤ 262144 → get_index s = 14) ∧
      (262144 < s → get_index s = 15)) ∧
    (∀ a b, a ≤ b → get_index a ≤ get_index b) ∧
    (∀ s, get_index s ≤ 15) := by
  refine ⟨fun s => ?_, fun a b hab => ?_, fun s => ?_⟩
  · rcases get_index_spec s with h|h|h|h|h|h|h|h|h|h|h|h|h|h|h|h <;>
      exact ⟨fun hc => by omega, fun hc => by omega, fun hc => by omega,
        fun hc => by omega, fun hc => by omega, fun hc => by omega,
        fun hc => by omega, fun hc => by omega, fun hc => by omega,
        fun hc => by omega, fun hc => by omega, fun hc => by omega,
        fun hc => by omega, fun hc => by omega, fun hc => by omega,
        fun hc => by omega⟩
  · rcases get_index_spec a with h|h|h|h|h|h|h|h|h|h|h|h|h|h|h|h <;>
      rcases get_index_spec b with h2|h2|h2|h2|h2|h2|h2|h2|h2|h2|h2|h2|h2|h2|h2|h2 <;>
      omega
  · rcases get_index_spec s with h|h|h|h|h|h|h|h|h|h|h|h|h|h|h|h <;> omega

/-- Witness for C8 at concrete sizes. -/
theorem claim_C8_witness :
    get_index 40 = 1 ∧ get_index 33 ≤ get_index 100000 ∧ get_index 7 ≤ 15 :=
  ⟨(claim_C8.1 40).2.1 ⟨by omega, by omega⟩,
   claim_C8.2.1 33 100000 (by omega),
   claim_C8.2.2 7⟩

/-- C9: the word transforms of `set_prev_alloc` and `free_prev_alloc` are
idempotent and leave the size bits (bits 4 and above, as read by
`get_size`) and the alloc bit (bit 0, as read by `is_alloc`) unchanged. -/
theorem claim_C9 (v : Nat) :
    setPA (setPA v) = setPA v ∧ freePA (freePA v) = freePA v ∧
    wSize (setPA v) = wSize v ∧ wSize (freePA v) = wSize v ∧
    wAlloc (setPA v) = wAlloc v ∧ wAlloc (freePA v) = wAlloc v := by
  have h22 : (2 : Nat) ||| 2 = 2 := by decide
  have hdd : (0xfffffffffffffffd : Nat) &&& 0xfffffffffffffffd =
      0xfffffffffffffffd := Nat.and_self _
  have h2m : (2 : Nat) &&& 0xfffffffffffffff0 = 0 := by decide
  have hdm : (0xfffffffffffffffd : Nat) &&& 0xfffffffffffffff0 =
      0xfffffffffffffff0 := by decide
  have h21 : (2 : Nat) &&& 1 = 0 := by decide
  have hd1 : (0xfffffffffffffffd : Nat) &&& 1 = 1 := by decide
  refine ⟨?_, ?_, ?_, ?_, ?_, ?_⟩
  · rw [setPA, setPA, Nat.or_assoc, h22]
  · rw [freePA, freePA, Nat.and_assoc, hdd]
  · rw [wSize, setPA, Nat.and_distrib_right, h2m, Nat.or_zero, wSize]
  · rw [wSize, freePA, Nat.and_assoc, hdm, wSize]
  · rw [wAlloc, wAlloc, ← Nat.and_one_is_mod, ← Nat.and_one_is_mod, setPA,
      Nat.and_distrib_right, h21, Nat.or_zero]
  · rw [wAlloc, wAlloc, ← Nat.and_one_is_mod, ← Nat.and_one_is_mod, freePA,
      Nat.and_assoc, hd1]

/-- C7 counterexample: at request size `n = 2^64 - 8` the `size+w`
addition in `malloc` wraps around in `size_t`, so the code normalizes the
request to 32 while the mathematical `max(32, align_up(n + 8, 16))` is
`2^64`; the claim fails as stated for such sizes. -/
theorem claim_C7_counterexample :
    normalize (M64 - 8) = 32 ∧
    max 32 (align_up ((M64 - 8) + W) 16) = M64 ∧
    normalize (M64 - 8) ≠ max 32 (align_up ((M64 - 8) + W) 16) := by
  have h1 : normalize (M64 - 8) = 32 := by decide
  have h2 : max 32 (align_up ((M64 - 8) + W) 16) = M64 := by decide
  refine ⟨h1, h2, ?_⟩
  rw [h1, h2]
  decide

/-- C7 (amended): for every request size `n` with `n + 24 ≤ 2^64` (so the
`size_t` additions in the normalization cannot wrap), `malloc` normalizes
the request to `n' = max(32, align_up(n + W, 16))` — add one word for the
header, round up to a multiple of 16, floor at 32 — and searches with
exactly that size. For larger `n` the addition wraps modulo `2^64`. -/
theorem claim_C7_amended (n : Nat) (h : n + 24 ≤ M64) :
    normalize n = max 32 (align_up (n + W) 16) ∧
    ∀ st fuel, malloc st n fuel = finder st (max 32 (align_up (n + W) 16)) fuel := by
  have hM : M64 = 2 ^ 64 := rfl
  have hmain : normalize n = max 32 (align_up (n + W) 16) := by
    unfold normalize align align_up W
    have e1 : (n + 8) % M64 = n + 8 := by
      apply Nat.mod_eq_of_lt
      simp only [M64] at h ⊢
      omega
    have e2 : (n + 8 + 15) % M64 = n + 8 + 15 := by
      apply Nat.mod_eq_of_lt
      simp only [M64] at h ⊢
      omega
    rw [e1, e2]
    have e3 : n + 8 + 16 - 1 = n + 8 + 15 := by omega
    rw [e3]
    rcases Nat.lt_or_ge (16 * ((n + 8 + 15) / 16)) 32 with hlt | hge
    · rw [if_pos hlt]
      omega
    · rw [if_neg (by omega)]
      omega
  exact ⟨hmain, fun st fuel => by rw [malloc, hmain]⟩

/-- Witness for the amended C7 at `n = 24`. -/
theorem claim_C7_amended_witness :
    24 + 24 ≤ M64 ∧ normalize 24 = max 32 (align_up (24 + W) 16) :=
  ⟨by decide, (claim_C7_amended 24 (by decide)).1⟩

/-- C5: when the provider satisfies an extension request of normalized
size `n` with base `B = st.brk`, `extend` records the old epilogue's
prev-alloc bit `Q`, requests exactly `n` bytes, writes a header at `B - W`
with size `n`, `prev_alloc = Q`, `alloc = 1`, writes a new epilogue header
(size 0, alloc 1) at `B + n - W`, writes nothing else (no footer), leaves
every free-list head untouched, and returns the payload pointer `B`. -/
theorem claim_C5 (st : AState) (n : Nat) (h16 : n % 16 = 0) (h32 : 32 ≤ n)
    (hlt : n < M64) (hbrk : 8 ≤ st.brk) (hsb : st.brk + n ≤ st.limit) :
    (extend st n).1 = some st.brk ∧
    ((extend st n).2).brk = st.brk + n ∧
    ((extend st n).2).heads = st.heads ∧
    get_size (extend st n).2 (st.brk - 8) = n ∧
    is_alloc (extend st n).2 (st.brk - 8) = 1 ∧
    get_prev_alloc (extend st n).2 (st.brk - 8) = get_prev_alloc st (st.brk - 8) ∧
    ((extend st n).2).mem (st.brk + n - 8) = 3 ∧
    get_size (extend st n).2 (st.brk + n - 8) = 0 ∧
    is_alloc (extend st n).2 (st.brk + n - 8) = 1 ∧
    (∀ a, a ≠ st.brk - 8 → a ≠ st.brk + n - 8 →
      ((extend st n).2).mem a = st.mem a) := by
  have hepi : (st.brk - 1) - (W - 1) = st.brk - 8 := by unfold W; omega
  have hQ : wPrevAlloc (st.mem (st.brk - 8)) ≤ 1 := wPrevAlloc_le_one _
  have hne : st.brk - 8 ≠ st.brk + (n - W) := by unfold W; omega
  have haddr : st.brk + (n - W) = st.brk + n - 8 := by unfold W; omega
  have h3 : mkH 0 1 1 = 3 := by decide
  have hW : W = 8 := rfl
  have hext : extend st n =
      (some st.brk,
        wr (wr { st with brk := st.brk + n } (st.brk - W)
            (mkH n (wPrevAlloc (st.mem (st.brk - 8))) 1))
          (st.brk + (n - W)) (mkH 0 1 1)) := by
    unfold extend sbrk get_prev_alloc
    rw [hepi, if_pos hsb]
    rfl
  rw [hext]
  refine ⟨rfl, rfl, rfl, ?_, ?_, ?_, ?_, ?_, ?_, ?_⟩
  · rw [get_size, mem_wr_ne _ _ _ _ hne, hW, mem_wr_eq]
    exact wSize_mkH n _ 1 h16 hlt hQ (by omega)
  · rw [is_alloc, mem_wr_ne _ _ _ _ hne, hW, mem_wr_eq]
    exact wAlloc_mkH n _ 1 h16 hQ (by omega)
  · rw [get_prev_alloc, mem_wr_ne _ _ _ _ hne, hW, mem_wr_eq,
      wPrevAlloc_mkH n _ 1 h16 hQ (by omega), get_prev_alloc]
  · rw [← haddr, mem_wr_eq, h3]
  · rw [get_size, ← haddr, mem_wr_eq]
    decide
  · rw [is_alloc, ← haddr, mem_wr_eq]
    decide
  · intro a ha1 ha2
    rw [mem_wr_ne _ _ _ _ (by rw [haddr]; exact ha2),
      mem_wr_ne _ _ _ _ (by rw [hW]; exact ha1)]

/-- C6: serving a normalized request `n` from a chosen block of size
`S = get_size st ptr`: if `S - n ≥ 32` the block is split — its header is
rewritten with size `n`, prev-alloc preserved, alloc 1; a new free block
appears at offset `n` with size `S - n`, prev-alloc 1, alloc 0, a footer
carrying the same size at the block's old end, and its node is inserted
into the list of class `get_index (S - n)` (head when the list was empty,
linked in front of the old head otherwise, no other list touched). If
`S - n < 32` the whole block is consumed: header rewritten with size `S`,
prev-alloc preserved, alloc 1, and the successor header's prev-alloc bit
set, with nothing else written. The `hdisj` hypothesis says the target
list's head node and its prev pointer lie outside the chosen block, as the
free-list invariants guarantee. -/
theorem claim_C6 (st : AState) (ptr n : Nat) (h16 : n % 16 = 0)
    (h32 : 32 ≤ n) (hfit : n ≤ get_size st ptr) (hptr : 8 ≤ ptr)
    (hdisj : ∀ first, st.heads (get_index (get_size st ptr - n)) = some first →
      (first + 8 < ptr ∨ ptr + get_size st ptr < first) ∧
      (st.mem first + 8 < ptr ∨ ptr + get_size st ptr < st.mem first)) :
    (32 ≤ get_size st ptr - n →
      (allocate st ptr n).1 = ptr + W ∧
      get_size (allocate st ptr n).2 ptr = n ∧
      is_alloc (allocate st ptr n).2 ptr = 1 ∧
      get_prev_alloc (allocate st ptr n).2 ptr = get_prev_alloc st ptr ∧
      get_size (allocate st ptr n).2 (ptr + n) = get_size st ptr - n ∧
      is_alloc (allocate st ptr n).2 (ptr + n) = 0 ∧
      get_prev_alloc (allocate st ptr n).2 (ptr + n) = 1 ∧
      get_size (allocate st ptr n).2 (ptr + (get_size st ptr - W)) =
        get_size st ptr - n ∧
      is_alloc (allocate st ptr n).2 (ptr + (get_size st ptr - W)) = 0 ∧
      (∀ j, j ≠ get_index (get_size st ptr - n) →
        ((allocate st ptr n).2).heads j = st.heads j) ∧
      (st.heads (get_index (get_size st ptr - n)) = none →
        ((allocate st ptr n).2).heads (get_index (get_size st ptr - n)) =
          some (ptr + n + W) ∧
        ((allocate st ptr n).2).mem (ptr + n + W) = ptr + n + W ∧
        ((allocate st ptr n).2).mem (ptr + n + W + W) = ptr + n + W) ∧
      (∀ first, st.heads (get_index (get_size st ptr - n)) = some first →
        ((allocate st ptr n).2).heads (get_index (get_size st ptr - n)) =
          some first ∧
        ((allocate st ptr n).2).mem (ptr + n + W + W) = first ∧
        ((allocate st ptr n).2).mem (ptr + n + W) = st.mem first)) ∧
    (get_size st ptr - n < 32 →
      (allocate st ptr n).1 = ptr + W ∧
      get_size (allocate st ptr n).2 ptr = get_size st ptr ∧
      is_alloc (allocate st ptr n).2 ptr = 1 ∧
      get_prev_alloc (allocate st ptr n).2 ptr = get_prev_alloc st ptr ∧
      ((allocate st ptr n).2).mem (ptr + get_size st ptr) =
        setPA (st.mem (ptr + get_size st ptr)) ∧
      get_prev_alloc (allocate st ptr n).2 (ptr + get_size st ptr) = 1 ∧
      ((allocate st ptr n).2).heads = st.heads ∧
      (∀ a, a ≠ ptr → a ≠ ptr + get_size st ptr →
        ((allocate st ptr n).2).mem a = st.mem a)) := by
  have hW : W = 8 := rfl
  have hSM : get_size st ptr < M64 := wSize_lt _
  have hS16 : get_size st ptr % 16 = 0 := wSize_mod16 _
  have hpa1 : get_prev_alloc st ptr ≤ 1 := wPrevAlloc_le_one _
  have hmod : (M64 + get_size st ptr - n) % M64 = get_size st ptr - n := by
    have h1 : M64 + get_size st ptr - n = M64 + (get_size st ptr - n) := by
      omega
    rw [h1, Nat.add_mod_left, Nat.mod_eq_of_lt (by omega)]
  constructor
  · intro hsplit
    have hcond : 4 * W ≤ (M64 + get_size st ptr - n) % M64 := by
      rw [hmod, hW]
      omega
    have hal : allocate st ptr n =
        (ptr + W, addnode
          (wr (wr (wr st ptr (mkH n (get_prev_alloc st ptr) 1))
            (ptr + n) (mkH (get_size st ptr - n) 1 0))
            (ptr + (get_size st ptr - W)) (mkF (get_size st ptr - n) 0))
          (ptr + n + W)) := by
      simp only [allocate, get_f, h2n, make_h, make_f]
      rw [if_pos hcond, hmod]
    have hfne : ptr + (get_size st ptr - W) ≠ ptr + n := by
      rw [hW]; omega
    have hfne2 : ptr + (get_size st ptr - W) ≠ ptr := by
      rw [hW]; omega
    have hpn : ptr + n ≠ ptr := by omega
    -- the state addnode acts on
    set stA := wr (wr (wr st ptr (mkH n (get_prev_alloc st ptr) 1))
        (ptr + n) (mkH (get_size st ptr - n) 1 0))
        (ptr + (get_size st ptr - W)) (mkF (get_size st ptr - n) 0) with hstA
    have hApn : stA.mem (ptr + n) = mkH (get_size st ptr - n) 1 0 := by
      rw [hstA, mem_wr_ne _ _ _ _ (Ne.symm hfne), mem_wr_eq]
    have hAp : stA.mem ptr = mkH n (get_prev_alloc st ptr) 1 := by
      rw [hstA, mem_wr_ne _ _ _ _ (Ne.symm hfne2), mem_wr_ne _ _ _ _ (Ne.symm hpn),
        mem_wr_eq]
    have hAf : stA.mem (ptr + (get_size st ptr - W)) =
        mkF (get_size st ptr - n) 0 := by
      rw [hstA, mem_wr_eq]
    have hAheads : stA.heads = st.heads := rfl
    have hn2hnode : n2h (ptr + n + W) = ptr + n := by
      simp only [n2h, W]; omega
    have hsub16 : (get_size st ptr - n) % 16 = 0 := by omega
    have hsubM : get_size st ptr - n < M64 := by omega
    have hsizeA : get_size stA (n2h (ptr + n + W)) = get_size st ptr - n := by
      rw [hn2hnode, get_size, hApn,
        wSize_mkH _ 1 0 hsub16 hsubM (by omega) (by omega)]
    have hsA : get_size stA ptr = n := by
      rw [get_size, hAp, wSize_mkH n _ 1 h16 (by omega) hpa1 (by omega)]
    rw [hal]
    -- decode facts that do not depend on the addnode branch are proved
    -- after the branch case split
    rcases hc : st.heads (get_index (get_size st ptr - n)) with _ | first
    · -- empty class list: the node becomes the head, self-linked
      have hfin : addnode stA (ptr + n + W) =
          wr (wr (setHead stA (get_index (get_size st ptr - n))
            (some (ptr + n + W))) (ptr + n + W) (ptr + n + W))
            (ptr + n + W + W) (ptr + n + W) := by
        simp only [addnode]
        rw [hsizeA, hAheads, hc]
      rw [hfin]
      have hm1 : ∀ x, x ≠ ptr + n + W → x ≠ ptr + n + W + W →
          (wr (wr (setHead stA (get_index (get_size st ptr - n))
            (some (ptr + n + W))) (ptr + n + W) (ptr + n + W))
            (ptr + n + W + W) (ptr + n + W)).mem x = stA.mem x := by
        intro x hx1 hx2
        rw [mem_wr_ne _ _ _ _ hx2, mem_wr_ne _ _ _ _ hx1]
        rfl
      refine ⟨rfl, ?_, ?_, ?_, ?_, ?_, ?_, ?_, ?_, ?_, ?_, ?_⟩
      · rw [get_size, hm1 ptr (by rw [hW]; omega) (by rw [hW]; omega), hAp,
          wSize_mkH n _ 1 h16 (by omega) hpa1 (by omega)]
      · rw [is_alloc, hm1 ptr (by rw [hW]; omega) (by rw [hW]; omega), hAp,
          wAlloc_mkH n _ 1 h16 hpa1 (by omega)]
      · rw [get_prev_alloc, hm1 ptr (by rw [hW]; omega) (by rw [hW]; omega),
          hAp, wPrevAlloc_mkH n _ 1 h16 hpa1 (by omega)]
      · rw [get_size, hm1 (ptr + n) (by rw [hW]; omega) (by rw [hW]; omega),
          hApn, wSize_mkH _ 1 0 hsub16 hsubM (by omega) (by omega)]
      · rw [is_alloc, hm1 (ptr + n) (by rw [hW]; omega) (by rw [hW]; omega),
          hApn, wAlloc_mkH _ 1 0 hsub16 (by omega) (by omega)]
      · rw [get_prev_alloc, hm1 (ptr + n) (by rw [hW]; omega) (by rw [hW]; omega),
          hApn, wPrevAlloc_mkH _ 1 0 hsub16 (by omega) (by omega)]
      · rw [get_size, hm1 (ptr + (get_size st ptr - W)) (by rw [hW]; omega)
          (by rw [hW]; omega), hAf, wSize_mkF _ 0 hsub16 hsubM (by omega)]
      · rw [is_alloc, hm1 (ptr + (get_size st ptr - W)) (by rw [hW]; omega)
          (by rw [hW]; omega), hAf, wAlloc_mkF _ 0 hsub16 (by omega)]
      · intro j hj
        show (setHead stA (get_index (get_size st ptr - n))
          (some (ptr + n + W))).heads j = st.heads j
        rw [heads_setHead_ne _ _ _ _ hj, hAheads]
      · intro _
        refine ⟨?_, ?_, ?_⟩
        · show (setHead stA (get_index (get_size st ptr - n))
            (some (ptr + n + W))).heads (get_index (get_size st ptr - n)) =
            some (ptr + n + W)
          rw [heads_setHead_eq]
        · rw [mem_wr_ne _ _ _ _ (by rw [hW]; omega), mem_wr_eq]
        · rw [mem_wr_eq]
      · intro first hfirst
        exact Option.noConfusion hfirst
    · -- nonempty class list: link the node in front of the old head
      obtain ⟨hf1, hf2⟩ := hdisj first hc
      have hfirstA : stA.mem first = st.mem first := by
        rw [hstA, mem_wr_ne _ _ _ _ (by rw [hW]; omega),
          mem_wr_ne _ _ _ _ (by omega), mem_wr_ne _ _ _ _ (by omega)]
      have hfin0 : addnode stA (ptr + n + W) =
          wr (wr (wr (wr stA (ptr + n + W) (stA.mem first))
            (ptr + n + W + W) first)
            ((wr (wr stA (ptr + n + W) (stA.mem first))
              (ptr + n + W + W) first).mem first + W) (ptr + n + W))
            first (ptr + n + W) := by
        simp only [addnode]
        rw [hsizeA, hAheads, hc]
      have hmidfirst : (wr (wr stA (ptr + n + W) (stA.mem first))
          (ptr + n + W + W) first).mem first = st.mem first := by
        rw [mem_wr_ne _ _ _ _ (by rw [hW]; omega),
          mem_wr_ne _ _ _ _ (by rw [hW]; omega), hfirstA]
      have hfin : addnode stA (ptr + n + W) =
          wr (wr (wr (wr stA (ptr + n + W) (st.mem first))
            (ptr + n + W + W) first)
            (st.mem first + W) (ptr + n + W))
            first (ptr + n + W) := by
        rw [hfin0, hmidfirst, hfirstA]
      rw [hfin]
      have hm2 : ∀ x, x ≠ ptr + n + W → x ≠ ptr + n + W + W →
          x ≠ st.mem first + W → x ≠ first →
          (wr (wr (wr (wr stA (ptr + n + W) (st.mem first))
            (ptr + n + W + W) first)
            (st.mem first + W) (ptr + n + W))
            first (ptr + n + W)).mem x = stA.mem x := by
        intro x hx1 hx2 hx3 hx4
        rw [mem_wr_ne _ _ _ _ hx4, mem_wr_ne _ _ _ _ hx3,
          mem_wr_ne _ _ _ _ hx2, mem_wr_ne _ _ _ _ hx1]
      refine ⟨rfl, ?_, ?_, ?_, ?_, ?_, ?_, ?_, ?_, ?_, ?_, ?_⟩
      · rw [get_size, hm2 ptr (by rw [hW]; omega) (by rw [hW]; omega)
          (by rw [hW]; omega) (by omega), hAp,
          wSize_mkH n _ 1 h16 (by omega) hpa1 (by omega)]
      · rw [is_alloc, hm2 ptr (by rw [hW]; omega) (by rw [hW]; omega)
          (by rw [hW]; omega) (by omega), hAp,
          wAlloc_mkH n _ 1 h16 hpa1 (by omega)]
      · rw [get_prev_alloc, hm2 ptr (by rw [hW]; omega) (by rw [hW]; omega)
          (by rw [hW]; omega) (by omega), hAp,
          wPrevAlloc_mkH n _ 1 h16 hpa1 (by omega)]
      · rw [get_size, hm2 (ptr + n) (by rw [hW]; omega) (by rw [hW]; omega)
          (by rw [hW]; omega) (by omega), hApn,
          wSize_mkH _ 1 0 hsub16 hsubM (by omega) (by omega)]
      · rw [is_alloc, hm2 (ptr + n) (by rw [hW]; omega) (by rw [hW]; omega)
          (by rw [hW]; omega) (by omega), hApn,
          wAlloc_mkH _ 1 0 hsub16 (by omega) (by omega)]
      · rw [get_prev_alloc, hm2 (ptr + n) (by rw [hW]; omega)
          (by rw [hW]; omega) (by rw [hW]; omega) (by omega), hApn,
          wPrevAlloc_mkH _ 1 0 hsub16 (by omega) (by omega)]
      · rw [get_size, hm2 (ptr + (get_size st ptr - W)) (by rw [hW]; omega)
          (by rw [hW]; omega) (by rw [hW]; omega) (by rw [hW]; omega), hAf,
          wSize_mkF _ 0 hsub16 hsubM (by omega)]
      · rw [is_alloc, hm2 (ptr + (get_size st ptr - W)) (by rw [hW]; omega)
          (by rw [hW]; omega) (by rw [hW]; omega) (by rw [hW]; omega), hAf,
          wAlloc_mkF _ 0 hsub16 (by omega)]
      · intro j _
        rfl
      · intro h0
        exact Option.noConfusion h0
      · intro f' hf'
        rw [Option.some.injEq] at hf'
        subst hf'
        refine ⟨?_, ?_, ?_⟩
        · show stA.heads (get_index (get_size st ptr - n)) = some first
          rw [hAheads, hc]
        · rw [mem_wr_ne _ _ _ _ (by rw [hW]; omega),
            mem_wr_ne _ _ _ _ (by rw [hW]; omega), mem_wr_eq]
        · rw [mem_wr_ne _ _ _ _ (by rw [hW]; omega),
            mem_wr_ne _ _ _ _ (by rw [hW]; omega),
            mem_wr_ne _ _ _ _ (by rw [hW]; omega), mem_wr_eq]
  · intro hcons
    have hcond : ¬ (4 * W ≤ (M64 + get_size st ptr - n) % M64) := by
      rw [hmod, hW]
      omega
    have hps : ptr + get_size st ptr ≠ ptr := by omega
    have hal : allocate st ptr n =
        (ptr + W, wr (wr st ptr (mkH (get_size st ptr)
          (get_prev_alloc st ptr) 1)) (ptr + get_size st ptr)
          (setPA (st.mem (ptr + get_size st ptr)))) := by
      simp only [allocate, make_h, set_prev_alloc]
      rw [if_neg hcond, mem_wr_ne _ _ _ _ hps]
    rw [hal]
    refine ⟨rfl, ?_, ?_, ?_, ?_, ?_, rfl, ?_⟩
    · rw [get_size, mem_wr_ne _ _ _ _ (Ne.symm hps), mem_wr_eq,
        wSize_mkH _ _ 1 hS16 hSM hpa1 (by omega)]
    · rw [is_alloc, mem_wr_ne _ _ _ _ (Ne.symm hps), mem_wr_eq,
        wAlloc_mkH _ _ 1 hS16 hpa1 (by omega)]
    · rw [get_prev_alloc, mem_wr_ne _ _ _ _ (Ne.symm hps), mem_wr_eq,
        wPrevAlloc_mkH _ _ 1 hS16 hpa1 (by omega)]
    · rw [mem_wr_eq]
    · rw [get_prev_alloc, mem_wr_eq, wPrevAlloc_setPA]
    · intro a ha1 ha2
      rw [mem_wr_ne _ _ _ _ ha2, mem_wr_ne _ _ _ _ ha1]

/-- A concrete state for the C6 witness: one free block of size 96 at
address 512, all class lists empty. -/
def splitSt : AState :=
  { mem := fun a => if a = 512 then 96 else 0, heads := fun _ => none,
    brk := 0, limit := 0 }

/-- Witness for C6: splitting the 96-byte block on a 32-byte request
leaves a 32-byte allocated header, a 64-byte free block at offset 32 with
a matching footer, and the node heads class `get_index 64 = 2`. -/
theorem claim_C6_witness :
    (allocate splitSt 512 32).1 = 512 + W ∧
    get_size (allocate splitSt 512 32).2 512 = 32 ∧
    get_size (allocate splitSt 512 32).2 (512 + 32) = 64 ∧
    is_alloc (allocate splitSt 512 32).2 (512 + 32) = 0 ∧
    get_size (allocate splitSt 512 32).2 (512 + (96 - W)) = 64 ∧
    ((allocate splitSt 512 32).2).heads (get_index 64) = some (512 + 32 + W) := by
  have H := (claim_C6 splitSt 512 32 (by decide) (by decide) (by decide)
    (by decide) (fun first h => Option.noConfusion h)).1 (by decide)
  have hs : get_size splitSt 512 = 96 := by decide
  refine ⟨H.1, H.2.1, ?_, ?_, ?_, ?_⟩
  · have h5 := H.2.2.2.2.1
    rw [hs] at h5
    exact h5
  · exact H.2.2.2.2.2.1
  · have h8 := H.2.2.2.2.2.2.2.1
    rw [hs] at h8
    exact h8
  · have h11 := H.2.2.2.2.2.2.2.2.2.2.1
    rw [hs] at h11
    exact (h11 (by decide)).1

/-- A small concrete state used to witness the extension theorem: every
word reads 3 (an epilogue-like word), all lists empty, brk at 64. -/
def extSt : AState :=
  { mem := fun _ => 3, heads := fun _ => none, brk := 64, limit := 1000 }

/-- Witness for C5 at a concrete state and size 32. -/
theorem claim_C5_witness :
    32 % 16 = 0 ∧ 32 ≤ 32 ∧ (32 : Nat) < M64 ∧ 8 ≤ extSt.brk ∧
      extSt.brk + 32 ≤ extSt.limit ∧
      (extend extSt 32).1 = some 64 ∧
      get_size (extend extSt 32).2 (64 - 8) = 32 ∧
      ((extend extSt 32).2).heads = extSt.heads :=
  ⟨by decide, by decide, by decide, by decide, by decide,
   (claim_C5 extSt 32 (by decide) (by decide) (by decide) (by decide)
      (by decide)).1,
   (claim_C5 extSt 32 (by decide) (by decide) (by decide) (by decide)
      (by decide)).2.2.2.1,
   (claim_C5 extSt 32 (by decide) (by decide) (by decide) (by decide)
      (by decide)).2.2.1⟩

/-! ## Concrete runs of the public API

The provider base is 4096. After `mm_init`, the prologue sits at 4104
(footer 4112), the epilogue at 4120, and the break at 4128. The first
`malloc(24)` extends the heap by 32 bytes: block header 4120 (size 32),
payload 4128, new epilogue 4152, break 4160. -/

/-- The heap right after `mm_init` with provider base 4096 and the given
provider limit. -/
def demoSt (limit : Nat) : AState :=
  (mm_init 4096 limit).getD
    { mem := fun _ => 0, heads := fun _ => none, brk := 0, limit := 0 }

/-- After one `malloc(24)` on the fresh heap with a plentiful provider:
a single 32-byte allocated block with payload pointer 4128. -/
def reallocSt : AState := (malloc (demoSt 100000) 24 100).2

/-- The same single-allocation heap, but the provider is exhausted
(limit 4160 = the current break): any further extension fails. -/
def exhaustSt : AState := (malloc (demoSt 4160) 24 100).2

/-- Fresh heap with a large provider, for the `calloc` overflow run. -/
def callocSt : AState := demoSt (2 ^ 40)

/-- C1 (code bug): `realloc(p, 16)` on the sole 32-byte allocated block
(header 4120, payload 4128) allocates a new block at 4160 and returns it,
but never releases the old block: after the call the old header still has
`alloc = 1` and every free list is still empty — no `free`/`free_hf` call
exists on this path of `realloc`. -/
theorem claim_C1 :
    (realloc reallocSt (some 4128) 16 100).1 = some 4160 ∧
    is_alloc (realloc reallocSt (some 4128) 16 100).2.1 4120 = 1 ∧
    (∀ i, i < 16 → ((realloc reallocSt (some 4128) 16 100).2.1).heads i = none) := by
  decide

/-- C2 counterexample: growing the 32-byte block (payload size 24) with
`realloc(p, 100)` issues `memcpy(newptr, p, 32)` — the copy length is
`min(100, old_block_size) = 32`, not `min(100, old_block_size - W) = 24`
as the claim states. -/
theorem claim_C2_counterexample :
    (realloc reallocSt (some 4128) 100 100).2.2 =
      some ⟨some 4160, 4128, 32⟩ ∧
    (32 : Nat) ≠ min 100 (32 - 8) := by
  decide

/-- C2 (amended): for `realloc(p, size)` with non-null `p` and
`size ≠ 0`, the issued `memcpy` copies exactly
`min(size, old_block_size)` bytes, where `old_block_size` is the full
size read from the old block's header after the internal `malloc` — the
header word is not reduced by `W`, so when `size ≥ old_block_size` the
copy covers 8 bytes beyond the old payload. -/
theorem claim_C2_amended (st : AState) (p size fuel : Nat) (h : size ≠ 0) :
    (realloc st (some p) size fuel).2.2 =
      some ⟨(malloc st size fuel).1, p,
        min size (get_size (malloc st size fuel).2 (p - W))⟩ := by
  simp only [realloc]
  rw [if_neg h]
  rcases hm : malloc st size fuel with ⟨r, s1⟩
  dsimp only
  have hmin : (if get_size s1 (p - W) < size then get_size s1 (p - W)
      else size) = min size (get_size s1 (p - W)) := by
    rcases Nat.lt_or_ge (get_size s1 (p - W)) size with h' | h'
    · rw [if_pos h', Nat.min_eq_right (Nat.le_of_lt h')]
    · rw [if_neg (by omega), Nat.min_eq_left h']
  rw [hmin]

/-- Witness for the amended C2 at the concrete grow scenario. -/
theorem claim_C2_amended_witness :
    (100 : Nat) ≠ 0 ∧
    (realloc reallocSt (some 4128) 100 100).2.2 =
      some ⟨(malloc reallocSt 100 100).1, 4128,
        min 100 (get_size (malloc reallocSt 100 100).2 (4128 - W))⟩ :=
  ⟨by decide, claim_C2_amended reallocSt 4128 100 100 (by decide)⟩

/-- C3 (code bug): when the provider refuses the extension, `malloc`
itself does return null with the allocator state — heads, memory, break —
bit-for-bit unchanged (the search mutates nothing on a miss and `extend`
writes nothing when `mm_sbrk` fails). But the public call `realloc(p, n)`
then passes the null result of the failed `malloc` straight to `memcpy`
as the destination with a nonzero length (here `memcpy(NULL, 4128, 16)`),
which is undefined behavior, instead of returning null cleanly. -/
theorem claim_C3 :
    (∀ st n fuel, (get_freeblock st (normalize n) fuel).1 = none →
      st.limit < st.brk + normalize n → malloc st n fuel = (none, st)) ∧
    ((realloc exhaustSt (some 4128) 16 100).1 = none ∧
     (realloc exhaustSt (some 4128) 16 100).2.2 = some ⟨none, 4128, 16⟩) := by
  constructor
  · intro st n fuel hnone hlim
    unfold malloc finder
    rcases hs : searchIdx st (normalize n) fuel (get_index (normalize n))
        (16 - get_index (normalize n)) with _ | pair
    · have hg : get_freeblock st (normalize n) fuel = (none, st) := by
        unfold get_freeblock
        rw [hs]
      rw [hg]
      show extend st (normalize n) = (none, st)
      unfold extend sbrk
      rw [if_neg (by omega)]
    · exfalso
      have hsome : (get_freeblock st (normalize n) fuel).1 = some pair.1 := by
        unfold get_freeblock
        rw [hs]
      rw [hnone] at hsome
      exact Option.noConfusion hsome
  · constructor
    · decide
    · decide

/-- Witness for the universally quantified part of C3, at the exhausted
heap: the search misses, the provider cannot give 32 more bytes, and
`malloc(24)` returns null with the state unchanged. -/
theorem claim_C3_witness :
    (get_freeblock exhaustSt (normalize 24) 100).1 = none ∧
    exhaustSt.limit < exhaustSt.brk + normalize 24 ∧
    malloc exhaustSt 24 100 = (none, exhaustSt) :=
  ⟨by decide, by decide, claim_C3.1 exhaustSt 24 100 (by decide) (by decide)⟩

/-- C10: `calloc(2^32 + 1, 2^32)` computes the element-count product in
`size_t`, wrapping to `2^32` (the mathematical product is `2^64 + 2^32`);
no overflow check exists, so instead of a miss it allocates a block of
`2^32 + 16` bytes at the old break and zeroes `2^32` bytes — the returned
block covers far fewer bytes than `nmemb * size`. -/
theorem claim_C10 :
    (2 ^ 32) * (2 ^ 32 + 1) % M64 = 2 ^ 32 ∧
    (calloc callocSt (2 ^ 32 + 1) (2 ^ 32) 100).1 = some 4128 ∧
    (calloc callocSt (2 ^ 32 + 1) (2 ^ 32) 100).2.2 =
      some (4128, 2 ^ 32) ∧
    get_size (calloc callocSt (2 ^ 32 + 1) (2 ^ 32) 100).2.1 4120 =
      2 ^ 32 + 16 ∧
    2 ^ 32 + 16 < (2 ^ 32 + 1) * 2 ^ 32 := by
  refine ⟨by decide, ?_, ?_, ?_, by decide⟩ <;> decide

end MM
